import Mathlib

/-!
Verification of a monitor-object library: a `Monitor<T>` fusing a mutual-exclusion
lock with a condition variable, plus its RAII `MonitorGuard<T>`.

The library itself (src/lib.rs) is a thin composition of an underlying lock and
condition-variable primitive.  The primitive's contract (blocking acquire,
non-blocking try-acquire, bounded try-acquire, wait/notify with atomic
release-suspend-reacquire) is the external collaborator assumed by the design;
we model that contract explicitly and embed the library's own functions on top,
mirroring the source line by line.

Two complementary models are used:
* a sequential state-passing model (`Mutex`, `Condvar`, `Monitor`, `MonitorGuard`)
  for the API-level claims;
* an interleaving transition system (`Sys`, `Step`) for the multi-threaded
  mutual-exclusion / lost-update claim;
* an allocation-identity model (`MonitorRep`, `GuardRep`) for the structural
  lock/condition-variable pairing claim.
-/

namespace ParkingMonitor

/-- Thread-of-execution identifier. -/
abbrev Tid := Nat

/-- Modelled from the spec: the external mutual-exclusion primitive
(`parking_lot::Mutex`).  `owner` is the thread currently holding the lock
(`none` = unlocked); `value` is the protected datum; `releases` is a ghost
counter of unlock events, used to state "released exactly once". -/
structure Mutex (T : Type) where
  owner : Option Tid
  value : T
  releases : Nat
deriving DecidableEq

/-- Modelled from the spec: the external condition-variable primitive
(`parking_lot::Condvar`); its state is the queue of suspended waiters. -/
structure Condvar where
  waiters : List Tid
deriving DecidableEq

/-- Modelled from the spec: a fresh, unlocked mutex around `t`. -/
def Mutex.new (t : T) : Mutex T := ⟨none, t, 0⟩

/-- Modelled from the spec: completion of a blocking acquire.  A blocking
`lock` returns only once the mutex is free, so theorems about it carry the
hypothesis `owner = none` describing the state at the moment of acquisition. -/
def Mutex.lockAcquire (t : Tid) (mx : Mutex T) : Mutex T :=
  { mx with owner := some t }

/-- Modelled from the spec: non-blocking try-acquire.  The lock is not
reentrant (spec non-goals), so the attempt fails whenever the mutex is held,
no matter by which thread of execution. -/
def Mutex.try_lock (t : Tid) (mx : Mutex T) : Option (Mutex T) :=
  if mx.owner = none then some (mx.lockAcquire t) else none

/-- Modelled from the spec: bounded try-acquire by duration.  The Boolean
oracle `acqWithin` abstracts the race against the bound: it is `true` exactly
when the primitive obtained the lock before the duration elapsed, in which
case the state shown is the one at the moment of acquisition. -/
def Mutex.try_lock_for (t : Tid) (acqWithin : Bool) (mx : Mutex T) : Option (Mutex T) :=
  if acqWithin then some (mx.lockAcquire t) else none

/-- Modelled from the spec: bounded try-acquire by absolute deadline; same
oracle treatment as `Mutex.try_lock_for`. -/
def Mutex.try_lock_until (t : Tid) (acqWithin : Bool) (mx : Mutex T) : Option (Mutex T) :=
  if acqWithin then some (mx.lockAcquire t) else none

/-- Modelled from the spec: release of the mutex (the `Drop` of a
`MutexGuard`).  Bumps the ghost release counter. -/
def Mutex.unlock (mx : Mutex T) : Mutex T :=
  { mx with owner := none, releases := mx.releases + 1 }

/-- Modelled from the spec: `Mutex::into_inner` — consumes the mutex and
returns the protected value, with no acquisition and for every lock state. -/
def Mutex.into_inner (mx : Mutex T) : T := mx.value

/-- Modelled from the spec: a fresh condition variable with no waiters. -/
def Condvar.new : Condvar := ⟨[]⟩

/-- Modelled from the spec: wake at most one suspended waiter; the Boolean
reports whether a thread of execution was woken (`parking_lot` returns it,
the library discards it). -/
def Condvar.notify_one (cv : Condvar) : Condvar × Bool :=
  match cv.waiters with
  | [] => (cv, false)
  | _ :: ws => (⟨ws⟩, true)

/-- Modelled from the spec: wake every suspended waiter; the number reports
how many were woken. -/
def Condvar.notify_all (cv : Condvar) : Condvar × Nat :=
  (⟨[]⟩, cv.waiters.length)

/-- The monitor object, from src/lib.rs lines 7-11: a mutex guarding the
value and a condition variable scoped to that mutex. -/
structure Monitor (T : Type) where
  mutex : Mutex T
  cv : Condvar
deriving DecidableEq

/-- `Monitor::new` (lines 14-19): fresh mutex around `t`, fresh condvar. -/
def Monitor.new (t : T) : Monitor T :=
  { mutex := Mutex.new t, cv := Condvar.new }

/-- The guard, from lines 98-101: the proof of exclusive access handed out by
a successful acquisition.  `tid` is the holding thread of execution and
`value` its exclusive view of the protected datum (the `MutexGuard` it owns,
accessed through `Deref`/`DerefMut`, lines 129-141).  The `&Condvar` the
guard also stores is treated in the allocation-identity model below. -/
structure MonitorGuard (T : Type) where
  tid : Tid
  value : T
deriving DecidableEq

/-- `Monitor::lock` (lines 21-23): blocking acquire, then bundle the guard. -/
def Monitor.lock (t : Tid) (m : Monitor T) : MonitorGuard T × Monitor T :=
  (⟨t, m.mutex.value⟩, { m with mutex := m.mutex.lockAcquire t })

/-- `Monitor::try_lock` (lines 25-29): map the primitive's result into a
bundled guard. -/
def Monitor.try_lock (t : Tid) (m : Monitor T) : Option (MonitorGuard T × Monitor T) :=
  (m.mutex.try_lock t).map fun mx => (⟨t, mx.value⟩, { m with mutex := mx })

/-- `Monitor::try_lock_for` (lines 31-35). -/
def Monitor.try_lock_for (t : Tid) (acqWithin : Bool) (m : Monitor T) :
    Option (MonitorGuard T × Monitor T) :=
  (m.mutex.try_lock_for t acqWithin).map fun mx => (⟨t, mx.value⟩, { m with mutex := mx })

/-- `Monitor::try_lock_until` (lines 37-41). -/
def Monitor.try_lock_until (t : Tid) (acqWithin : Bool) (m : Monitor T) :
    Option (MonitorGuard T × Monitor T) :=
  (m.mutex.try_lock_until t acqWithin).map fun mx => (⟨t, mx.value⟩, { m with mutex := mx })

/-- Destruction of a `MonitorGuard`: dropping it drops the owned `MutexGuard`,
which writes back the (possibly mutated) value and unlocks the mutex.
Modelled from the spec: RAII release on every exit path. -/
def MonitorGuard.drop (g : MonitorGuard T) (m : Monitor T) : Monitor T :=
  { m with mutex := ({ m.mutex with value := g.value }).unlock }

/-- `Monitor::with_lock` (lines 43-48): `f(self.lock())`.  The operation `f`
consumes the guard — its higher-ranked lifetime prevents the guard from
escaping `f` — so the model lets `f` return the guard's final state, which is
dropped before the combinator returns. -/
def Monitor.with_lock (t : Tid) (f : MonitorGuard T → U × MonitorGuard T) (m : Monitor T) :
    U × Monitor T :=
  let p := m.lock t
  let q := f p.1
  (q.1, q.2.drop p.2)

/-- `Monitor::try_with_lock` (lines 50-55): `self.try_lock().map(f)`. -/
def Monitor.try_with_lock (t : Tid) (f : MonitorGuard T → U × MonitorGuard T) (m : Monitor T) :
    Option U × Monitor T :=
  match m.try_lock t with
  | none => (none, m)
  | some p =>
    let q := f p.1
    (some q.1, q.2.drop p.2)

/-- `Monitor::try_with_lock_for` (lines 57-62): `self.try_lock_for(timeout).map(f)`. -/
def Monitor.try_with_lock_for (t : Tid) (acqWithin : Bool)
    (f : MonitorGuard T → U × MonitorGuard T) (m : Monitor T) : Option U × Monitor T :=
  match m.try_lock_for t acqWithin with
  | none => (none, m)
  | some p =>
    let q := f p.1
    (some q.1, q.2.drop p.2)

/-- `Monitor::try_with_lock_until` (lines 64-69): `self.try_lock_until(timeout).map(f)`. -/
def Monitor.try_with_lock_until (t : Tid) (acqWithin : Bool)
    (f : MonitorGuard T → U × MonitorGuard T) (m : Monitor T) : Option U × Monitor T :=
  match m.try_lock_until t acqWithin with
  | none => (none, m)
  | some p =>
    let q := f p.1
    (some q.1, q.2.drop p.2)

/-- `Monitor::into_inner` (lines 71-73): `self.mutex.into_inner()`. -/
def Monitor.into_inner (m : Monitor T) : T := m.mutex.into_inner

/-- `Monitor::get_mut` (lines 75-77): direct access to the value given
exclusive access to the monitor, bypassing the lock. -/
def Monitor.get_mut (m : Monitor T) : T := m.mutex.value

/-- `MonitorGuard::notify_one` (lines 108-110): `self.cv.notify_one();` —
the woken/not-woken Boolean is discarded, the mutex is untouched. -/
def MonitorGuard.notify_one (_g : MonitorGuard T) (m : Monitor T) : Monitor T :=
  { m with cv := (m.cv.notify_one).1 }

/-- `MonitorGuard::notify_all` (lines 112-114): `self.cv.notify_all();`. -/
def MonitorGuard.notify_all (_g : MonitorGuard T) (m : Monitor T) : Monitor T :=
  { m with cv := (m.cv.notify_all).1 }

/-- Modelled from the spec: the result of a bounded wait
(`parking_lot::WaitTimeoutResult`); `timedOut` is its `timed_out()` query. -/
structure WaitTimeoutResult where
  timedOut : Bool
deriving DecidableEq

/-- `MonitorGuard::wait_for` (lines 120-122): `self.cv.wait_for(&mut self.guard, timeout)`.
Modelled from the spec: atomically release the lock and enqueue the caller;
the wait ends either by notification or by the bound elapsing (the oracle
`notified` abstracts which); in both cases the caller leaves the waiter queue
and reacquires the lock before the call returns. -/
def MonitorGuard.wait_for (g : MonitorGuard T) (notified : Bool) (m : Monitor T) :
    WaitTimeoutResult × MonitorGuard T × Monitor T :=
  let released : Monitor T :=
    { mutex := ({ m.mutex with value := g.value }).unlock,
      cv := ⟨m.cv.waiters ++ [g.tid]⟩ }
  let awake : Monitor T := { released with cv := ⟨released.cv.waiters.erase g.tid⟩ }
  let reacq : Monitor T := { awake with mutex := awake.mutex.lockAcquire g.tid }
  (⟨!notified⟩, ⟨g.tid, reacq.mutex.value⟩, reacq)

/-- `MonitorGuard::wait_until` (lines 124-126): same contract as `wait_for`
with the bound given as an absolute deadline. -/
def MonitorGuard.wait_until (g : MonitorGuard T) (notified : Bool) (m : Monitor T) :
    WaitTimeoutResult × MonitorGuard T × Monitor T :=
  g.wait_for notified m

/-- Rust `Default`, derived field-wise for `Monitor` (line 7); the underlying
mutex primitive's `Default` wraps `T::default()` in a fresh mutex. -/
def Mutex.defaultImpl (T : Type) [Inhabited T] : Mutex T := Mutex.new default

/-- The condition-variable primitive's `Default` is a fresh condvar. -/
def Condvar.defaultImpl : Condvar := Condvar.new

/-- `#[derive(Default)] Monitor` (line 7): field-wise defaults. -/
def Monitor.defaultImpl (T : Type) [Inhabited T] : Monitor T :=
  { mutex := Mutex.defaultImpl T, cv := Condvar.defaultImpl }

/-- Whether the mutex is held by some thread of execution other than `t`. -/
def Mutex.heldByAnother (mx : Mutex T) (t : Tid) : Prop :=
  ∃ u, u ≠ t ∧ mx.owner = some u

/-- The three ways control can leave a scope holding a guard. -/
inductive ExitKind where
  | normal
  | earlyReturn
  | unwind
deriving DecidableEq

/-- A lexical scope that acquires a guard and leaves by one of the three exit
kinds: on a normal exit the whole body (`bodyFull`) ran; an early return or an
unwind cut the body short (`bodyCut`).  On every path the guard is dropped
exactly once when the scope is left — Rust runs the destructor of a live local
on each exit edge. -/
def runGuardedScope (t : Tid) (e : ExitKind) (bodyFull bodyCut : T → T) (m : Monitor T) :
    Monitor T :=
  let p := m.lock t
  let g : MonitorGuard T :=
    match e with
    | .normal => ⟨p.1.tid, bodyFull p.1.value⟩
    | .earlyReturn => ⟨p.1.tid, bodyCut p.1.value⟩
    | .unwind => ⟨p.1.tid, bodyCut p.1.value⟩
  g.drop p.2

/-! ### Allocation-identity model: lock/condition-variable pairing

`Monitor`'s fields are private in the source, so outside the crate a reference
to a monitor's condition variable exists only inside a `MonitorGuard` built by
one of the four safe acquisition functions (lines 21-41), each of which calls
`MonitorGuard::new(&self.cv, <guard of self.mutex>)`.  We track which condition
variable and which mutex a guard references by allocation identity. -/

/-- Identity of a condition-variable allocation. -/
structure CondvarRef where
  id : Nat
deriving DecidableEq

/-- Identity of a mutex allocation. -/
structure MutexRef where
  id : Nat
deriving DecidableEq

/-- A monitor's two components by identity.  `Monitor::new` (lines 14-19)
creates the mutex and the condition variable together, so one allocation `n`
yields the pair (`mutexRef n`, `cvRef n`). -/
structure MonitorRep where
  mutexId : MutexRef
  cvId : CondvarRef
deriving DecidableEq

/-- Allocation of a fresh monitor: both components carry the monitor's
allocation identity. -/
def allocMonitor (n : Nat) : MonitorRep := ⟨⟨n⟩, ⟨n⟩⟩

/-- What a `MonitorGuard` references (lines 98-101): the `&Condvar` stored in
its `cv` field and the mutex whose `MutexGuard` it owns. -/
structure GuardRep where
  cv : CondvarRef
  lock : MutexRef
deriving DecidableEq

/-- `Monitor::lock` (line 22): `MonitorGuard::new(&self.cv, self.mutex.lock())`. -/
def MonitorRep.lockRep (m : MonitorRep) : GuardRep := ⟨m.cvId, m.mutexId⟩

/-- `Monitor::try_lock` (lines 25-29); `ok` abstracts whether the primitive
acquisition succeeded. -/
def MonitorRep.tryLockRep (m : MonitorRep) (ok : Bool) : Option GuardRep :=
  if ok then some ⟨m.cvId, m.mutexId⟩ else none

/-- `Monitor::try_lock_for` (lines 31-35). -/
def MonitorRep.tryLockForRep (m : MonitorRep) (ok : Bool) : Option GuardRep :=
  if ok then some ⟨m.cvId, m.mutexId⟩ else none

/-- `Monitor::try_lock_until` (lines 37-41). -/
def MonitorRep.tryLockUntilRep (m : MonitorRep) (ok : Bool) : Option GuardRep :=
  if ok then some ⟨m.cvId, m.mutexId⟩ else none

/-- The guards obtainable through the crate's safe surface that reference a
`Monitor`'s condition variable: exactly the results of the four acquisition
functions (the combinators, lines 43-69, only pass these guards on to the
caller's operation).  `Monitor`'s fields are private, so `MonitorGuard::new`
called by outside code can never be fed a monitor's own condition variable. -/
inductive SafeSurfaceGuard : GuardRep → Prop where
  | ofLock (n : Nat) : SafeSurfaceGuard ((allocMonitor n).lockRep)
  | ofTryLock (n : Nat) (ok : Bool) (g : GuardRep) :
      (allocMonitor n).tryLockRep ok = some g → SafeSurfaceGuard g
  | ofTryLockFor (n : Nat) (ok : Bool) (g : GuardRep) :
      (allocMonitor n).tryLockForRep ok = some g → SafeSurfaceGuard g
  | ofTryLockUntil (n : Nat) (ok : Bool) (g : GuardRep) :
      (allocMonitor n).tryLockUntilRep ok = some g → SafeSurfaceGuard g

/-! ### Interleaving model: mutual exclusion and lost updates

N threads of execution each repeat M times: acquire the monitor's lock, read
the guarded counter through the guard, write the incremented value back
through the guard, drop the guard.  The read and the write are separate steps,
so a lost update is expressible; only the acquire step is gated by the lock. -/

/-- Program counter of one thread of execution inside its lock-increment-unlock
loop.  `held`: just acquired, guard live; `haveVal v`: read the counter value
`v` through the guard; `wrote`: wrote `v + 1` back, about to drop the guard. -/
inductive PC where
  | outside
  | held
  | haveVal (v : Nat)
  | wrote
deriving DecidableEq

/-- One thread of execution: its program counter and how many
lock-increment-unlock iterations remain. -/
structure TSt where
  pc : PC
  rem : Nat
deriving DecidableEq

/-- Global state: the monitor's lock owner, the guarded counter, and every
thread of execution's local state. -/
structure Sys (N : Nat) where
  owner : Option (Fin N)
  counter : Nat
  threads : Fin N → TSt

/-- Initial state: monitor free, counter 0, every thread of execution outside
with M iterations to go. -/
def initSys (N M : Nat) : Sys N :=
  { owner := none, counter := 0, threads := fun _ => ⟨.outside, M⟩ }

/-- Interleaving semantics.  `acquire` is `Monitor::lock` completing, possible
only while no thread of execution holds the lock; `readv`/`writev` are the
guard dereferences, gated only by the thread's own program counter (the guard
it holds); `release` is the guard's drop. -/
inductive Step : Sys N → Sys N → Prop where
  | acquire (s : Sys N) (t : Fin N) :
      (s.threads t).pc = .outside → (s.threads t).rem ≠ 0 → s.owner = none →
      Step s { owner := some t, counter := s.counter,
               threads := Function.update s.threads t ⟨.held, (s.threads t).rem⟩ }
  | readv (s : Sys N) (t : Fin N) :
      (s.threads t).pc = .held →
      Step s { s with threads := Function.update s.threads t ⟨.haveVal s.counter, (s.threads t).rem⟩ }
  | writev (s : Sys N) (t : Fin N) (v : Nat) :
      (s.threads t).pc = .haveVal v →
      Step s { s with
               counter := v + 1,
               threads := Function.update s.threads t ⟨.wrote, (s.threads t).rem⟩ }
  | release (s : Sys N) (t : Fin N) :
      (s.threads t).pc = .wrote →
      Step s { owner := none, counter := s.counter,
               threads := Function.update s.threads t ⟨.outside, (s.threads t).rem - 1⟩ }

/-- Reachability from the initial state under any interleaving. -/
def Reach (N M : Nat) (s : Sys N) : Prop :=
  Relation.ReflTransGen Step (initSys N M) s

/-- All threads of execution finished their loops. -/
def terminalSys (s : Sys N) : Prop :=
  ∀ t, (s.threads t).pc = .outside ∧ (s.threads t).rem = 0

/-- Ghost accounting of one thread of execution: the increments it still owes
(an increment is owed until the write step has happened). -/
def contrib (ts : TSt) : Int :=
  (ts.rem : Int) - (if ts.pc = .wrote then 1 else 0)

/-- The inductive invariant: (1) any thread of execution with a live guard is
the lock owner (hence at most one); (2) a value read through the guard is
still the current counter; (3) a thread inside the loop has an iteration
outstanding; (4) counter plus owed increments is constantly N*M. -/
def Inv (N M : Nat) (s : Sys N) : Prop :=
  (∀ t, (s.threads t).pc ≠ .outside → s.owner = some t) ∧
  (∀ t v, (s.threads t).pc = .haveVal v → v = s.counter) ∧
  (∀ t, (s.threads t).pc ≠ .outside → 1 ≤ (s.threads t).rem) ∧
  ((s.counter : Int) + ∑ t : Fin N, contrib (s.threads t) = (N : Int) * (M : Int))

/-! ### Invariant proofs for the interleaving model -/

/-- Updating one thread of execution's state shifts the owed-increments sum by
the change in that thread's contribution. -/
theorem sum_contrib_update {N : Nat} (thr : Fin N → TSt) (t : Fin N) (a : TSt) :
    ∑ u : Fin N, contrib (Function.update thr t a u) =
      (∑ u : Fin N, contrib (thr u)) - contrib (thr t) + contrib a := by
  have h : ∀ u : Fin N, contrib (Function.update thr t a u) =
      Function.update (fun u => contrib (thr u)) t (contrib a) u := by
    intro u
    by_cases hu : u = t
    · subst hu; simp
    · simp [Function.update_noteq hu]
  rw [Finset.sum_congr rfl fun u _ => h u]
  rw [Finset.sum_update_of_mem (Finset.mem_univ t)]
  rw [Finset.sum_eq_sum_diff_singleton_add (Finset.mem_univ t) fun u => contrib (thr u)]
  ring

/-- The invariant holds initially. -/
theorem inv_init (N M : Nat) : Inv N M (initSys N M) := by
  refine ⟨?_, ?_, ?_, ?_⟩
  · intro t ht; exact absurd rfl ht
  · intro t v hv; exact PC.noConfusion hv
  · intro t ht; exact absurd rfl ht
  · simp [initSys, contrib, Finset.sum_const, Finset.card_univ, mul_comm]

/-- The invariant is preserved by every interleaving step. -/
theorem inv_step {N M : Nat} {s s' : Sys N} (hs : Inv N M s) (h : Step s s') :
    Inv N M s' := by
  obtain ⟨h1, h2, h3, h4⟩ := hs
  cases h with
  | acquire t hpc hrem hown =>
    refine ⟨?_, ?_, ?_, ?_⟩ <;> dsimp only
    · intro u hu
      by_cases hut : u = t
      · rw [hut]
      · exfalso
        rw [Function.update_noteq hut] at hu
        have hx := h1 u hu
        rw [hown] at hx
        exact Option.noConfusion hx
    · intro u v huv
      by_cases hut : u = t
      · rw [hut, Function.update_same] at huv
        exact PC.noConfusion huv
      · rw [Function.update_noteq hut] at huv
        exact h2 u v huv
    · intro u hu
      by_cases hut : u = t
      · rw [hut, Function.update_same]
        exact Nat.one_le_iff_ne_zero.mpr hrem
      · rw [Function.update_noteq hut] at hu ⊢
        exact h3 u hu
    · rw [sum_contrib_update]
      have hc : contrib (⟨.held, (s.threads t).rem⟩ : TSt) = contrib (s.threads t) := by
        simp [contrib, hpc]
      rw [hc]
      linarith [h4]
  | readv t hpc =>
    refine ⟨?_, ?_, ?_, ?_⟩ <;> dsimp only
    · intro u hu
      by_cases hut : u = t
      · rw [hut]
        exact h1 t (by simp [hpc])
      · rw [Function.update_noteq hut] at hu
        exact h1 u hu
    · intro u v huv
      by_cases hut : u = t
      · rw [hut, Function.update_same] at huv
        injection huv with hv
        exact hv.symm
      · rw [Function.update_noteq hut] at huv
        exact h2 u v huv
    · intro u hu
      by_cases hut : u = t
      · rw [hut, Function.update_same]
        exact h3 t (by simp [hpc])
      · rw [Function.update_noteq hut] at hu ⊢
        exact h3 u hu
    · rw [sum_contrib_update]
      have hc : contrib (⟨.haveVal s.counter, (s.threads t).rem⟩ : TSt) =
          contrib (s.threads t) := by
        simp [contrib, hpc]
      rw [hc]
      linarith [h4]
  | writev t v hv =>
    refine ⟨?_, ?_, ?_, ?_⟩ <;> dsimp only
    · intro u hu
      by_cases hut : u = t
      · rw [hut]
        exact h1 t (by simp [hv])
      · rw [Function.update_noteq hut] at hu
        exact h1 u hu
    · intro u w huv
      by_cases hut : u = t
      · rw [hut, Function.update_same] at huv
        exact PC.noConfusion huv
      · exfalso
        rw [Function.update_noteq hut] at huv
        have hou : s.owner = some u := h1 u (by simp [huv])
        have hot : s.owner = some t := h1 t (by simp [hv])
        rw [hou] at hot
        exact hut (Option.some.inj hot)
    · intro u hu
      by_cases hut : u = t
      · rw [hut, Function.update_same]
        exact h3 t (by simp [hv])
      · rw [Function.update_noteq hut] at hu ⊢
        exact h3 u hu
    · rw [sum_contrib_update]
      have hveq : v = s.counter := h2 t v hv
      subst hveq
      have hold : contrib (s.threads t) = ((s.threads t).rem : Int) := by
        simp [contrib, hv]
      have hnew : contrib (⟨.wrote, (s.threads t).rem⟩ : TSt) =
          ((s.threads t).rem : Int) - 1 := by
        simp [contrib]
      rw [hold, hnew]
      push_cast
      linarith [h4]
  | release t hpc =>
    refine ⟨?_, ?_, ?_, ?_⟩ <;> dsimp only
    · intro u hu
      by_cases hut : u = t
      · exfalso
        rw [hut, Function.update_same] at hu
        exact hu rfl
      · exfalso
        rw [Function.update_noteq hut] at hu
        have hou : s.owner = some u := h1 u hu
        have hot : s.owner = some t := h1 t (by simp [hpc])
        rw [hou] at hot
        exact hut (Option.some.inj hot)
    · intro u w huv
      by_cases hut : u = t
      · rw [hut, Function.update_same] at huv
        exact PC.noConfusion huv
      · rw [Function.update_noteq hut] at huv
        exact h2 u w huv
    · intro u hu
      by_cases hut : u = t
      · exfalso
        rw [hut, Function.update_same] at hu
        exact hu rfl
      · rw [Function.update_noteq hut] at hu ⊢
        exact h3 u hu
    · rw [sum_contrib_update]
      have hr : 1 ≤ (s.threads t).rem := h3 t (by simp [hpc])
      have hold : contrib (s.threads t) = ((s.threads t).rem : Int) - 1 := by
        simp [contrib, hpc]
      have hnew : contrib (⟨.outside, (s.threads t).rem - 1⟩ : TSt) =
          ((s.threads t).rem : Int) - 1 := by
        simp [contrib]
        omega
      rw [hold, hnew]
      linarith [h4]

/-- Every reachable state satisfies the invariant. -/
theorem reach_inv {N M : Nat} {s : Sys N} (h : Reach N M s) : Inv N M s := by
  unfold Reach at h
  induction h with
  | refl => exact inv_init N M
  | tail _ hbc ih => exact inv_step ih hbc

/-- A concrete one-thread, one-increment run, used to exercise the
interleaving model: the initial state. -/
def wSys0 : Sys 1 := initSys 1 1

/-- After the acquire step of the single thread of execution. -/
def wSys1 : Sys 1 :=
  { owner := some 0, counter := 0, threads := Function.update wSys0.threads 0 ⟨.held, 1⟩ }

/-- After the read step. -/
def wSys2 : Sys 1 :=
  { wSys1 with threads := Function.update wSys1.threads 0 ⟨.haveVal 0, 1⟩ }

/-- After the write step. -/
def wSys3 : Sys 1 :=
  { wSys2 with
    counter := 1,
    threads := Function.update wSys2.threads 0 ⟨.wrote, 1⟩ }

/-- After the release step: terminal. -/
def wSys4 : Sys 1 :=
  { owner := none, counter := 1, threads := Function.update wSys3.threads 0 ⟨.outside, 0⟩ }

/-- The concrete run reaches the terminal state. -/
theorem wSys4_reach : Reach 1 1 wSys4 := by
  have h1 : Step wSys0 wSys1 := Step.acquire wSys0 0 rfl (by decide) rfl
  have h2 : Step wSys1 wSys2 := Step.readv wSys1 0 rfl
  have h3 : Step wSys2 wSys3 := Step.writev wSys2 0 0 rfl
  have h4 : Step wSys3 wSys4 := Step.release wSys3 0 rfl
  exact Relation.ReflTransGen.tail
    (Relation.ReflTransGen.tail
      (Relation.ReflTransGen.tail (Relation.ReflTransGen.tail Relation.ReflTransGen.refl h1) h2)
      h3) h4

/-! ### Claim theorems -/

/-- C1: in every reachable state of the interleaving model at most one thread
of execution is inside its critical section (holds a live guard), and when all
N threads of execution have finished their M lock-increment-unlock iterations
the counter is exactly N*M: mutual exclusion, no lost updates. -/
theorem mutual_exclusion_no_lost_updates (N M : Nat) (s : Sys N) (h : Reach N M s) :
    (∀ t u : Fin N, (s.threads t).pc ≠ .outside → (s.threads u).pc ≠ .outside → t = u) ∧
    (terminalSys s → s.counter = N * M) := by
  obtain ⟨h1, _, _, h4⟩ := reach_inv h
  constructor
  · intro t u ht hu
    have hx := (h1 t ht).symm.trans (h1 u hu)
    exact Option.some.inj hx
  · intro hterm
    have hz : ∀ t : Fin N, contrib (s.threads t) = 0 := by
      intro t
      obtain ⟨hpc, hrem⟩ := hterm t
      simp [contrib, hpc, hrem]
    rw [Finset.sum_congr rfl fun t _ => hz t] at h4
    simp only [Finset.sum_const_zero, add_zero] at h4
    exact_mod_cast h4

/-- Witness for C1: the concrete one-thread, one-increment run is reachable
and terminal, and the theorem yields mutual exclusion and counter = 1*1. -/
theorem mutual_exclusion_no_lost_updates_witness :
    (∀ t u : Fin 1, (wSys4.threads t).pc ≠ .outside → (wSys4.threads u).pc ≠ .outside → t = u) ∧
    wSys4.counter = 1 * 1 := by
  have h := mutual_exclusion_no_lost_updates 1 1 wSys4 wSys4_reach
  refine ⟨h.1, h.2 ?_⟩
  intro u
  fin_cases u
  exact ⟨rfl, rfl⟩

/-- C2: each combinator that successfully acquires has released the lock again
(exactly once) by the time it returns, whatever the caller-supplied operation
does with the guard: the guard handed to the operation cannot outlive the
combinator, and its drop unlocks the mutex and bumps the release count by one. -/
theorem combinators_release_before_returning (T U : Type) (m : Monitor T) (t : Tid)
    (f : MonitorGuard T → U × MonitorGuard T) (acqF acqU : Bool) :
    (m.mutex.owner = none →
      (m.with_lock t f).2.mutex.owner = none ∧
      (m.with_lock t f).2.mutex.releases = m.mutex.releases + 1) ∧
    ((m.try_lock t).isSome →
      (m.try_with_lock t f).2.mutex.owner = none ∧
      (m.try_with_lock t f).2.mutex.releases = m.mutex.releases + 1) ∧
    ((m.try_lock_for t acqF).isSome →
      (m.try_with_lock_for t acqF f).2.mutex.owner = none ∧
      (m.try_with_lock_for t acqF f).2.mutex.releases = m.mutex.releases + 1) ∧
    ((m.try_lock_until t acqU).isSome →
      (m.try_with_lock_until t acqU f).2.mutex.owner = none ∧
      (m.try_with_lock_until t acqU f).2.mutex.releases = m.mutex.releases + 1) := by
  refine ⟨fun _ => ⟨rfl, rfl⟩, ?_, ?_, ?_⟩
  · intro hs
    by_cases h : m.mutex.owner = none
    · simp [Monitor.try_with_lock, Monitor.try_lock, Mutex.try_lock, h,
        Mutex.lockAcquire, MonitorGuard.drop, Mutex.unlock]
    · exfalso
      simp [Monitor.try_lock, Mutex.try_lock, h] at hs
  · cases acqF with
    | false => intro hs; simp [Monitor.try_lock_for, Mutex.try_lock_for] at hs
    | true =>
      intro _
      simp [Monitor.try_with_lock_for, Monitor.try_lock_for, Mutex.try_lock_for,
        Mutex.lockAcquire, MonitorGuard.drop, Mutex.unlock]
  · cases acqU with
    | false => intro hs; simp [Monitor.try_lock_until, Mutex.try_lock_until] at hs
    | true =>
      intro _
      simp [Monitor.try_with_lock_until, Monitor.try_lock_until, Mutex.try_lock_until,
        Mutex.lockAcquire, MonitorGuard.drop, Mutex.unlock]

/-- Witness for C2 on a fresh monitor with a concrete operation. -/
theorem combinators_release_before_returning_witness :
    ((Monitor.new (0 : Nat)).with_lock 1 (fun g => (g.value, g))).2.mutex.owner = none ∧
    ((Monitor.new (0 : Nat)).try_with_lock 1 (fun g => (g.value, g))).2.mutex.releases =
      (Monitor.new (0 : Nat)).mutex.releases + 1 := by
  have h := combinators_release_before_returning Nat Nat (Monitor.new 0) 1
    (fun g => (g.value, g)) true true
  exact ⟨(h.1 rfl).1, (h.2.1 (by decide)).2⟩

/-- C3: every guard obtainable through the crate's safe surface bundles the
condition variable and the mutex of one and the same monitor allocation, so a
wait through such a guard always pairs a monitor's condition variable with
that monitor's own lock. -/
theorem safe_surface_pairing (g : GuardRep) (h : SafeSurfaceGuard g) :
    g.cv.id = g.lock.id ∧ ∃ n, g = (allocMonitor n).lockRep := by
  cases h with
  | ofLock n => exact ⟨rfl, n, rfl⟩
  | ofTryLock n ok g hg =>
    cases ok with
    | false => simp [MonitorRep.tryLockRep] at hg
    | true =>
      simp [MonitorRep.tryLockRep] at hg
      subst hg
      exact ⟨rfl, n, rfl⟩
  | ofTryLockFor n ok g hg =>
    cases ok with
    | false => simp [MonitorRep.tryLockForRep] at hg
    | true =>
      simp [MonitorRep.tryLockForRep] at hg
      subst hg
      exact ⟨rfl, n, rfl⟩
  | ofTryLockUntil n ok g hg =>
    cases ok with
    | false => simp [MonitorRep.tryLockUntilRep] at hg
    | true =>
      simp [MonitorRep.tryLockUntilRep] at hg
      subst hg
      exact ⟨rfl, n, rfl⟩

/-- Witness for C3: the guard of a concrete monitor allocation. -/
theorem safe_surface_pairing_witness :
    ((allocMonitor 0).lockRep).cv.id = ((allocMonitor 0).lockRep).lock.id ∧
    ∃ n, (allocMonitor 0).lockRep = (allocMonitor n).lockRep :=
  safe_surface_pairing ((allocMonitor 0).lockRep) (SafeSurfaceGuard.ofLock 0)

/-- C4: leaving a guard's scope by any exit kind — normal exit, early return,
or unwind — releases the lock exactly once: afterwards the mutex is free and
the release count went up by exactly one (no double release, no leak). -/
theorem guard_drop_releases_exactly_once (T : Type) (t : Tid) (e : ExitKind)
    (bodyFull bodyCut : T → T) (m : Monitor T) (_hfree : m.mutex.owner = none) :
    (runGuardedScope t e bodyFull bodyCut m).mutex.owner = none ∧
    (runGuardedScope t e bodyFull bodyCut m).mutex.releases = m.mutex.releases + 1 := by
  cases e <;> exact ⟨rfl, rfl⟩

/-- Witness for C4 on the early-return path of a concrete scope. -/
theorem guard_drop_releases_exactly_once_witness :
    (runGuardedScope 0 ExitKind.earlyReturn (fun v => v + 1) id
        (Monitor.new (0 : Nat))).mutex.releases =
      (Monitor.new (0 : Nat)).mutex.releases + 1 :=
  (guard_drop_releases_exactly_once Nat 0 ExitKind.earlyReturn (fun v => v + 1) id
    (Monitor.new 0) rfl).2

/-- C5: each try/bounded combinator returns an absent result exactly when its
acquisition primitive fails; on failure the operation is never invoked (the
result and post-state are the untouched input, for every operation); on
success it returns the operation's result. -/
theorem try_combinators_absent_iff_primitive (T U : Type) (m : Monitor T) (t : Tid)
    (f : MonitorGuard T → U × MonitorGuard T) (acqF acqU : Bool) :
    ((m.try_with_lock t f).1 = none ↔ m.mutex.try_lock t = none) ∧
    (m.mutex.try_lock t = none → m.try_with_lock t f = (none, m)) ∧
    (∀ g mm, m.try_lock t = some (g, mm) → (m.try_with_lock t f).1 = some (f g).1) ∧
    ((m.try_with_lock_for t acqF f).1 = none ↔ m.mutex.try_lock_for t acqF = none) ∧
    (m.mutex.try_lock_for t acqF = none → m.try_with_lock_for t acqF f = (none, m)) ∧
    (∀ g mm, m.try_lock_for t acqF = some (g, mm) →
      (m.try_with_lock_for t acqF f).1 = some (f g).1) ∧
    ((m.try_with_lock_until t acqU f).1 = none ↔ m.mutex.try_lock_until t acqU = none) ∧
    (m.mutex.try_lock_until t acqU = none → m.try_with_lock_until t acqU f = (none, m)) ∧
    (∀ g mm, m.try_lock_until t acqU = some (g, mm) →
      (m.try_with_lock_until t acqU f).1 = some (f g).1) := by
  by_cases h : m.mutex.owner = none <;>
    cases acqF <;> cases acqU <;>
      refine ⟨?_, ?_, ?_, ?_, ?_, ?_, ?_, ?_, ?_⟩ <;>
        simp [Monitor.try_with_lock, Monitor.try_with_lock_for, Monitor.try_with_lock_until,
          Monitor.try_lock, Monitor.try_lock_for, Monitor.try_lock_until,
          Mutex.try_lock, Mutex.try_lock_for, Mutex.try_lock_until, Mutex.lockAcquire, h]

/-- Witness for C5: a held monitor makes the try combinator absent without
touching the state; a free monitor yields the operation's result. -/
theorem try_combinators_absent_iff_primitive_witness :
    ({ mutex := ⟨some 0, (5 : Nat), 0⟩, cv := Condvar.new } : Monitor Nat).try_with_lock 1
        (fun g => (g.value, g)) =
      (none, { mutex := ⟨some 0, (5 : Nat), 0⟩, cv := Condvar.new }) ∧
    ((Monitor.new (5 : Nat)).try_with_lock 1 (fun g => (g.value, g))).1 = some 5 := by
  have hA := try_combinators_absent_iff_primitive Nat Nat
    { mutex := ⟨some 0, (5 : Nat), 0⟩, cv := Condvar.new } 1 (fun g => (g.value, g)) true true
  have hB := try_combinators_absent_iff_primitive Nat Nat (Monitor.new 5) 1
    (fun g => (g.value, g)) true true
  refine ⟨hA.2.1 (by decide), ?_⟩
  exact hB.2.2.1 ⟨1, 5⟩ { mutex := ⟨some 1, 5, 0⟩, cv := Condvar.new } (by decide)

/-- C6 as stated is false on the code: `try_lock` also returns an absent
result when the lock is held by the calling thread of execution itself (the
lock is not reentrant), while the claim's "None only if held by another
thread, Some otherwise" would demand success there. -/
theorem try_lock_counterexample :
    ¬ (∀ (mx : Mutex Nat) (t : Tid), ¬ mx.heldByAnother t → (mx.try_lock t).isSome) := by
  intro h
  have hna : ¬ (⟨some 0, 0, 0⟩ : Mutex Nat).heldByAnother 0 := by
    rintro ⟨u, hu, hmem⟩
    simp only [Option.some.injEq] at hmem
    exact hu hmem.symm
  exact absurd (h ⟨some 0, 0, 0⟩ 0 hna) (by decide)

/-- C6 amended: `try_lock` returns immediately, with a guard exactly when the
lock is held by no thread of execution at all (it is not reentrant, so a lock
held by the caller also yields an absent result); in particular while thread
A holds the lock any `try_lock` returns an absent result, and after A's
release a subsequent `try_lock` succeeds. -/
theorem try_lock_amended (T : Type) (m : Monitor T) (tA tB : Tid) :
    ((m.try_lock tB).isSome ↔ m.mutex.owner = none) ∧
    (m.mutex.owner = some tA → m.try_lock tB = none) ∧
    (m.mutex.owner = some tA →
      (({ m with mutex := m.mutex.unlock } : Monitor T).try_lock tB).isSome) := by
  refine ⟨?_, ?_, ?_⟩
  · by_cases h : m.mutex.owner = none <;>
      simp [Monitor.try_lock, Mutex.try_lock, h]
  · intro h
    simp [Monitor.try_lock, Mutex.try_lock, h]
  · intro h
    simp [Monitor.try_lock, Mutex.try_lock, Mutex.unlock]

/-- Witness for C6 (amended): a free monitor's `try_lock` succeeds; a held
one fails and succeeds again after the holder's release. -/
theorem try_lock_amended_witness :
    ((Monitor.new (7 : Nat)).try_lock 1).isSome ∧
    ({ mutex := ⟨some 0, (7 : Nat), 0⟩, cv := Condvar.new } : Monitor Nat).try_lock 1 = none ∧
    ((({ mutex := ⟨some 0, (7 : Nat), 0⟩, cv := Condvar.new } : Monitor Nat).mutex.unlock).try_lock
        1).isSome := by
  have h1 := try_lock_amended Nat (Monitor.new 7) 0 1
  have h2 := try_lock_amended Nat { mutex := ⟨some 0, (7 : Nat), 0⟩, cv := Condvar.new } 0 1
  refine ⟨h1.1.mpr rfl, h2.2.1 rfl, ?_⟩
  have h3 := h2.2.2 rfl
  simpa [Monitor.try_lock] using h3

/-- C7: the bounded waits return an indicator that is exactly "the bound
elapsed without notification", the calling thread of execution holds the lock
again when the call returns, and whether the wait timed out has no effect on
the resulting lock state; `wait_until` has the same contract as `wait_for`. -/
theorem wait_bounded_reacquires_lock (T : Type) (g : MonitorGuard T) (m : Monitor T)
    (notified : Bool) :
    ((g.wait_for notified m).1.timedOut = !notified) ∧
    ((g.wait_for notified m).2.2.mutex.owner = some g.tid) ∧
    ((g.wait_for notified m).2.1.tid = g.tid) ∧
    ((g.wait_for true m).2.2 = (g.wait_for false m).2.2) ∧
    (g.wait_until notified m = g.wait_for notified m) :=
  ⟨rfl, rfl, rfl, rfl, rfl⟩

/-- C8: `notify_one` leaves the mutex (owner, value, release count) untouched
— so does `notify_all` — is a no-op when no thread of execution waits, and
removes at most one waiter (exactly the first, when there is one). -/
theorem notify_frame_at_most_one (T : Type) (g : MonitorGuard T) (m : Monitor T) :
    ((g.notify_one m).mutex = m.mutex) ∧
    ((g.notify_all m).mutex = m.mutex) ∧
    (m.cv.waiters = [] → g.notify_one m = m) ∧
    (m.cv.waiters.length - (g.notify_one m).cv.waiters.length ≤ 1) ∧
    (∀ w ws, m.cv.waiters = w :: ws → (g.notify_one m).cv.waiters = ws) := by
  obtain ⟨mx, ⟨ws⟩⟩ := m
  refine ⟨rfl, rfl, ?_, ?_, ?_⟩
  · intro h
    have h' : ws = [] := h
    subst h'
    rfl
  · cases ws with
    | nil => simp [MonitorGuard.notify_one, Condvar.notify_one]
    | cons w ws2 =>
      simp only [MonitorGuard.notify_one, Condvar.notify_one, List.length_cons]
      omega
  · intro w ws2 h
    have h' : ws = w :: ws2 := h
    subst h'
    rfl

/-- Witness for C8: notifying with no waiters is a no-op; with one waiter the
queue empties while the mutex is untouched. -/
theorem notify_frame_at_most_one_witness :
    MonitorGuard.notify_one (⟨0, 5⟩ : MonitorGuard Nat)
        ({ mutex := ⟨some 0, 5, 0⟩, cv := Condvar.new } : Monitor Nat) =
      { mutex := ⟨some 0, 5, 0⟩, cv := Condvar.new } ∧
    (MonitorGuard.notify_one (⟨0, 5⟩ : MonitorGuard Nat)
        ({ mutex := ⟨some 0, 5, 0⟩, cv := ⟨[3]⟩ } : Monitor Nat)).cv.waiters = [] := by
  have hA := notify_frame_at_most_one Nat ⟨0, 5⟩ { mutex := ⟨some 0, 5, 0⟩, cv := Condvar.new }
  have hB := notify_frame_at_most_one Nat ⟨0, 5⟩ { mutex := ⟨some 0, 5, 0⟩, cv := ⟨[3]⟩ }
  exact ⟨hA.2.2.1 rfl, hB.2.2.2.2 3 [] rfl⟩

/-- C9: `Monitor::new(t).into_inner()` returns exactly `t`; `into_inner`
reads the owned value directly, for every lock state and independently of the
lock state — no acquisition, no blocking. -/
theorem into_inner_new_roundtrip (T : Type) (t : T) :
    (Monitor.new t).into_inner = t ∧
    (∀ m : Monitor T, m.into_inner = m.mutex.value) ∧
    (∀ (m : Monitor T) (o : Option Tid),
      (Monitor.mk { m.mutex with owner := o } m.cv).into_inner = m.into_inner) :=
  ⟨rfl, fun _ => rfl, fun _ _ => rfl⟩

/-- C10: the derived `Default` builds the monitor field-wise from the
primitives' defaults, which is exactly `Monitor::new(T::default())`: same
guarded value, fresh unlocked mutex, fresh condition variable. -/
theorem monitor_default_eq_new (T : Type) [Inhabited T] :
    Monitor.defaultImpl T = Monitor.new (default : T) ∧
    (Monitor.defaultImpl T).into_inner = (default : T) ∧
    (Monitor.defaultImpl T).mutex.owner = none ∧
    (Monitor.defaultImpl T).cv = Condvar.new :=
  ⟨rfl, rfl, rfl, rfl⟩

end ParkingMonitor



